import Mathlib

/-!
Verification of the makai_vcd_reader VCD parsing pipeline.

This file gives a shallow embedding, in Lean, of the parts of the crate that
the verified properties talk about:

* the idcode interning scheme (`src/tokenizer.rs`, `tokenize_idcode`) together
  with its inverse (`src/tokenizer/token.rs`, `TokenIdCode::write_to`),
* the timestamp tokenizer (`tokenize_timestamp`),
* the `$var` tokenizer (`tokenize_variable` and friends),
* the writer arm for `$var` tokens (`Token::write_to`),
* the header state machine (`src/parser.rs`, `VcdReader::parse_header`),
* the header path queries (`VcdHeader::get_variable`),
* the multi-threaded dispatcher routing (`src/utils.rs`, dispatcher thread),
* the progress-report logic of both loaders (`src/utils.rs`).

Conventions used throughout:

* Rust `usize`/`u64` values are Lean `Nat`s; the pointer width is 64 bits and
  wrap-around is written out explicitly (`% 2 ^ 64`) wherever the source relies
  on wrapping (release-mode) arithmetic.  Places where debug builds would
  instead panic on overflow are flagged in comments.
* Rust byte slices are `List Nat` with every element below 256.  Rust `String`s
  produced by `String::from_utf8_lossy` are kept as their underlying byte
  lists; on the ASCII payloads handled here the lossy conversion is the
  identity.
* The `ByteStorage` arena lives in the external `makai` crate; it is modelled
  from the specification (section 4.3 and 9) as an append-only list of byte
  strings whose insert returns the index of the appended entry.
* Fallible Rust functions returning `Result` become `Except`; an `&mut
  ByteStorage` parameter becomes explicit state passing, with the mutated
  store returned also on the error paths that the source reaches after its
  insertions.
-/

/-- Pointer width in bits (`usize::BITS` on the 64-bit targets the crate
supports). -/
def usize_bits : Nat := 64

/-- `2 ^ 64`, the modulus of wrapping `u64`/`usize` arithmetic. -/
def u64_mod : Nat := 2 ^ 64

/-- Wrapping `usize` subtraction `a - b` (release-mode semantics of Rust's
`a - b` on unsigned integers; debug builds panic when `b > a`). -/
def wrap_sub (a b : Nat) : Nat := (a + u64_mod - b % u64_mod) % u64_mod

/-- Wrapping `usize` addition (release-mode semantics). -/
def wrap_add (a b : Nat) : Nat := (a + b) % u64_mod

/-- Modelled from the spec: the append-only interning arena `ByteStorage` of
the external `makai` crate (spec section 4.3, "An append-only arena", and
section 9, "a growing buffer indexed by `(offset, length)` tuples is the
intended shape").  The store is a list of byte strings; ids are dense indices
into it. -/
structure ByteStorage where
  data : List (List Nat)
deriving DecidableEq, Repr

/-- Modelled from the spec: `insert(bytes) -> id` appends an immutable copy of
`bytes` and returns its (dense, stable) id. -/
def ByteStorage.insert (bs : ByteStorage) (b : List Nat) : ByteStorage × Nat :=
  (⟨bs.data ++ [b]⟩, bs.data.length)

/-- Modelled from the spec: `get(id) -> &bytes` retrieves the interned
payload. -/
def ByteStorage.get_bytes (bs : ByteStorage) (id : Nat) : List Nat :=
  bs.data.getD id []

/-- The little-endian byte packing of the inline branch of `tokenize_idcode`
(src/tokenizer.rs:58-63): the Rust loop runs `for i in (0..len).rev() { id <<=
8; id |= bytes[i]; }`, so byte 0 lands in the least significant position; that
loop is this right fold. -/
def pack_le : List Nat → Nat
  | [] => 0
  | b :: rest => (pack_le rest <<< 8) ||| b

/-- `tokenize_idcode` (src/tokenizer.rs:51-65).  Identifier runs that do not
fit in 63 bits (length over 8 bytes, or exactly 8 bytes with the top bit of
the last byte clear) are spilled to the byte store and tagged with the top
bit; shorter runs are packed inline little-endian. -/
def tokenize_idcode (bs : ByteStorage) (bytes : List Nat) : ByteStorage × Nat :=
  let usize_bytes := usize_bits / 8
  if usize_bytes < bytes.length ∨
      (bytes.length = usize_bytes ∧ bytes.getD (usize_bytes - 1) 0 >>> 7 = 0) then
    let (bs1, id) := bs.insert bytes
    (bs1, id ||| (1 <<< (usize_bits - 1)))
  else
    (bs, pack_le bytes)

/-- The inline loop of `TokenIdCode::write_to` (src/tokenizer/token.rs:36-46):
emit up to 8 low-to-high bytes of the id, stopping at the first zero byte. -/
def write_inline : Nat → Nat → List Nat
  | _, 0 => []
  | id, fuel + 1 =>
    let b := id &&& 0xff
    if b = 0 then [] else b :: write_inline (id >>> 8) fuel

/-- `TokenIdCode::write_to` (src/tokenizer/token.rs:33-53).  An id with the
top bit clear is decoded inline; otherwise the top bit is stripped (`id &
!mask`, i.e. `id &&& (2^63 - 1)` on a 64-bit target) and the payload is read
back from the byte store. -/
def TokenIdCode.write_to (bs : ByteStorage) (id : Nat) : List Nat :=
  let mask := 1 <<< (usize_bits - 1)
  if id &&& mask = 0 then write_inline id 8
  else bs.get_bytes (id &&& (mask - 1))

/-- A VCD identifier-code byte run: printable ASCII `0x21`-`0x7E`
(src/lexer.rs idcode character class). -/
def printable_run (bytes : List Nat) : Prop := ∀ b ∈ bytes, 0x21 ≤ b ∧ b ≤ 0x7E

instance (bytes : List Nat) : Decidable (printable_run bytes) :=
  inferInstanceAs (Decidable (∀ b ∈ bytes, _ ∧ _))

/-- Tokenizer error kinds (src/errors.rs).  The `ParseIntError` /
`ParseFloatError` payloads carried by the source are elided; the source
position is kept. -/
structure LexerPosition where
  index : Nat
  line : Nat
  column : Nat
  length : Nat
deriving DecidableEq, Repr

inductive TokenizerError where
  | UnexpectedTermination (pos : LexerPosition)
  | IntegerParseError (pos : LexerPosition)
  | ScalarParseError (pos : LexerPosition)
  | VectorParseError (pos : LexerPosition)
  | RealParseError (pos : LexerPosition)
  | IncorrectVariableWidth (declared actual : Nat) (pos : LexerPosition)
  | IncorrectRealWidth (pos : LexerPosition)
  | LexerError (pos : LexerPosition)
deriving DecidableEq, Repr

/-- `tokenize_timestamp` (src/tokenizer.rs:42-49).  The source skips exactly
one byte (the `#`) and then folds every remaining byte `b` with `result =
result * 10 + (b - b'0')`.  Both the `u8` subtraction and the `u64`
multiply/add are plain Rust arithmetic: they wrap in release builds (modelled
here) and panic on overflow in debug builds.  No overflow error is ever
returned. -/
def tokenize_timestamp (bytes : List Nat) : Except TokenizerError Nat :=
  .ok ((bytes.drop 1).foldl
    (fun result b => ((result * 10) % u64_mod + (b + 256 - 48) % 256) % u64_mod) 0)

/-- Whitespace bytes recognized by `split_bytes` and `get_bytes_trimmed`
(src/tokenizer.rs): space, tab, newline. -/
def is_ws (b : Nat) : Bool := b == 32 || b == 9 || b == 10

/-- First index holding a whitespace byte, or 0 when there is none — the
`first` loop of `split_bytes` (src/tokenizer.rs:19-28) leaves its accumulator
at 0 when it never breaks. -/
def first_ws_index (bytes : List Nat) : Nat :=
  match bytes.findIdx? (fun b => is_ws b) with
  | some i => i
  | none => 0

/-- First index at or after `start` holding a non-whitespace byte, or 0 when
there is none — the `second` loop of `split_bytes` (src/tokenizer.rs:29-38). -/
def first_nonws_from (bytes : List Nat) (start : Nat) : Nat :=
  match (bytes.drop start).findIdx? (fun b => !is_ws b) with
  | some j => start + j
  | none => 0

/-- `split_bytes` (src/tokenizer.rs:18-40): returns `(0..first, second..len)`
as two `(start, stop)` pairs. -/
def split_bytes (bytes : List Nat) : (Nat × Nat) × (Nat × Nat) :=
  let first := first_ws_index bytes
  let second := first_nonws_from bytes first
  ((0, first), (second, bytes.length))

/-- `Bytes::slice(start..stop)`. -/
def slice2 (bytes : List Nat) (r : Nat × Nat) : List Nat :=
  (bytes.take r.2).drop r.1

/-- `Tokenizer::get_bytes_trimmed` (src/tokenizer.rs:241-256): strip leading
and trailing space/tab/newline bytes. -/
def trim_bytes (bytes : List Nat) : List Nat :=
  ((bytes.dropWhile (fun b => is_ws b)).reverse.dropWhile (fun b => is_ws b)).reverse

/-- ASCII whitespace trimmed by Rust's `str::trim` (the payloads reaching it
here are ASCII). -/
def is_trim_ws (b : Nat) : Bool :=
  b == 32 || b == 9 || b == 10 || b == 13 || b == 11 || b == 12

/-- `String::from_utf8_lossy(..).trim().parse::<usize>()` as used by the
tokenizer: trim ASCII whitespace, accept an optional leading `+`, then decimal
digits; empty input, a stray byte (including the `_` the lexer's width class
admits, and the replacement characters lossy UTF-8 decoding would produce) or
a value outside `usize` yield `none` (the `ParseIntError` path). -/
def parse_usize (bytes : List Nat) : Option Nat :=
  let t := ((bytes.dropWhile (fun b => is_trim_ws b)).reverse.dropWhile
    (fun b => is_trim_ws b)).reverse
  let t2 := if t.headD 0 == 43 ∧ t ≠ [] then t.drop 1 else t
  if t2.isEmpty then none
  else if t2.all (fun b => 48 ≤ b ∧ b ≤ 57) then
    let v := t2.foldl (fun acc d => acc * 10 + (d - 48)) 0
    if v < u64_mod then some v else none
  else none

/-- Net types of `$var` declarations (src/tokenizer/token.rs:92-113). -/
inductive TokenVariableNetType where
  | Event | Integer | Parameter | Real | Realtime | Reg | Supply0 | Supply1
  | Time | Tri | Triand | Trior | Trireg | Tri0 | Tri1 | Wand | Wire | Wor
deriving DecidableEq, Repr

/-- ASCII bytes of a Lean string literal (all byte-string literals in the
embedded code are ASCII). -/
def ascii (s : String) : List Nat := s.toList.map Char.toNat

/-- The `from_byte_str` map derived by `#[indiscriminant]` for
`TokenVariableNetType`. -/
def TokenVariableNetType.from_byte_str (bytes : List Nat) : Option TokenVariableNetType :=
  if bytes = ascii "event" then some .Event
  else if bytes = ascii "integer" then some .Integer
  else if bytes = ascii "parameter" then some .Parameter
  else if bytes = ascii "real" then some .Real
  else if bytes = ascii "realtime" then some .Realtime
  else if bytes = ascii "reg" then some .Reg
  else if bytes = ascii "supply0" then some .Supply0
  else if bytes = ascii "supply1" then some .Supply1
  else if bytes = ascii "time" then some .Time
  else if bytes = ascii "tri" then some .Tri
  else if bytes = ascii "triand" then some .Triand
  else if bytes = ascii "trior" then some .Trior
  else if bytes = ascii "trireg" then some .Trireg
  else if bytes = ascii "tri0" then some .Tri0
  else if bytes = ascii "tri1" then some .Tri1
  else if bytes = ascii "wand" then some .Wand
  else if bytes = ascii "wire" then some .Wire
  else if bytes = ascii "wor" then some .Wor
  else none

/-- The `to_byte_str` map for `TokenVariableNetType`. -/
def TokenVariableNetType.to_byte_str : TokenVariableNetType → List Nat
  | .Event => ascii "event"
  | .Integer => ascii "integer"
  | .Parameter => ascii "parameter"
  | .Real => ascii "real"
  | .Realtime => ascii "realtime"
  | .Reg => ascii "reg"
  | .Supply0 => ascii "supply0"
  | .Supply1 => ascii "supply1"
  | .Time => ascii "time"
  | .Tri => ascii "tri"
  | .Triand => ascii "triand"
  | .Trior => ascii "trior"
  | .Trireg => ascii "trireg"
  | .Tri0 => ascii "tri0"
  | .Tri1 => ascii "tri1"
  | .Wand => ascii "wand"
  | .Wire => ascii "wire"
  | .Wor => ascii "wor"

/-- Scope kinds (src/tokenizer/token.rs:79-90). -/
inductive TokenScopeType where
  | Module | Task | Function | Begin | Fork | Struct | Union | Interface
deriving DecidableEq, Repr

/-- Timescale units and offsets (src/tokenizer/token.rs:60-77). -/
inductive TokenTimescale where
  | Femtoseconds | Picoseconds | Nanoseconds | Microseconds | Milliseconds | Seconds
deriving DecidableEq, Repr

inductive TokenTimescaleOffset where
  | One | Ten | Hundred
deriving DecidableEq, Repr

/-- `TokenVariableDescription` (src/tokenizer/token.rs:115-120); `id` is a
byte-store id for the reference name. -/
inductive TokenVariableDescription where
  | Unspecified (id : Nat)
  | Vector (id : Nat) (width : Nat)
  | VectorSelect (id : Nat) (msb lsb : Nat)
deriving DecidableEq, Repr

/-- `TokenVariableDescription::get_width` (src/tokenizer/token.rs:131-137).
The `VectorSelect` arm computes `msb - lsb + 1` in plain `usize` arithmetic:
wrapping in release builds (modelled), a panic in debug builds when
`lsb > msb`. -/
def TokenVariableDescription.get_width : TokenVariableDescription → Nat
  | .Unspecified _ => 0
  | .Vector _ width => width
  | .VectorSelect _ msb lsb => wrap_add (wrap_sub msb lsb) 1

def TokenVariableDescription.get_id : TokenVariableDescription → Nat
  | .Unspecified id => id
  | .Vector id _ => id
  | .VectorSelect id _ _ => id

/-- Whether a description is the `Unspecified` variant (the wildcard match in
src/tokenizer.rs:204-213). -/
def TokenVariableDescription.is_unspecified : TokenVariableDescription → Bool
  | .Unspecified _ => true
  | _ => false

/-- `tokenize_variable_description` (src/tokenizer.rs:129-173). -/
def tokenize_variable_description (bs : ByteStorage) (bytes : List Nat)
    (pos : LexerPosition) :
    ByteStorage × Except TokenizerError TokenVariableDescription :=
  let (id_range, width_range) := split_bytes bytes
  if id_range.2 ≤ id_range.1 then
    -- no whitespace at all: the whole run is the reference name
    let (bs1, id) := bs.insert bytes
    (bs1, .ok (.Unspecified id))
  else
    let (bs1, id) := bs.insert (slice2 bytes (0, id_range.2))
    if width_range.2 - width_range.1 ≤ 2 ∨ bytes.getD width_range.1 0 ≠ 91 ∨
        bytes.getD (width_range.2 - 1) 0 ≠ 93 then
      (bs1, .error (.LexerError pos))
    else
      let inner : Nat × Nat := (width_range.1 + 1, width_range.2 - 1)
      match (List.range' inner.1 (inner.2 - inner.1)).find? (fun i => bytes.getD i 0 == 58) with
      | some colon =>
        let msb_bytes := slice2 bytes (inner.1, colon)
        let lsb_bytes := slice2 bytes (colon + 1, inner.2)
        match parse_usize msb_bytes with
        | none => (bs1, .error (.IntegerParseError pos))
        | some msb =>
          match parse_usize lsb_bytes with
          | none => (bs1, .error (.IntegerParseError pos))
          | some lsb => (bs1, .ok (.VectorSelect id msb lsb))
      | none =>
        match parse_usize (slice2 bytes inner) with
        | none => (bs1, .error (.IntegerParseError pos))
        | some width => (bs1, .ok (.Vector id width))

/-- `tokenize_variable` (src/tokenizer.rs:175-224). -/
def tokenize_variable (bs : ByteStorage) (bytes : List Nat) (pos : LexerPosition) :
    ByteStorage ×
      Except TokenizerError (TokenVariableNetType × Nat × Nat × TokenVariableDescription) :=
  let (net_type_range, range) := split_bytes bytes
  match TokenVariableNetType.from_byte_str (slice2 bytes net_type_range) with
  | none => (bs, .error (.LexerError pos))
  | some net_type =>
    let bytes1 := slice2 bytes range
    let (width_range, range1) := split_bytes bytes1
    match parse_usize (slice2 bytes1 width_range) with
    | none => (bs, .error (.IntegerParseError pos))
    | some width =>
      let bytes2 := slice2 bytes1 range1
      let (idcode_range, vd_range) := split_bytes bytes2
      let (bs1, idcode) := tokenize_idcode bs (slice2 bytes2 idcode_range)
      match tokenize_variable_description bs1 (slice2 bytes2 vd_range) pos with
      | (bs2, .error e) => (bs2, .error e)
      | (bs2, .ok vd) =>
        if width ≠ vd.get_width ∧ vd.is_unspecified = false then
          (bs2, .error (.IncorrectVariableWidth width vd.get_width pos))
        else if (net_type = .Real ∨ net_type = .Realtime) ∧ width ≠ 64 then
          (bs2, .error (.IncorrectRealWidth pos))
        else
          (bs2, .ok (net_type, width, idcode, vd))

/-- Decimal formatting of a `usize` (`format!("{}", n)`). -/
def decimal_bytes_aux : Nat → Nat → List Nat
  | 0, _ => []
  | fuel + 1, n => if n < 10 then [48 + n] else decimal_bytes_aux fuel (n / 10) ++ [48 + n % 10]

def decimal_bytes (n : Nat) : List Nat := decimal_bytes_aux (n + 1) n

/-- `TokenVariableDescription::write_to` (src/tokenizer/token.rs:139-156).
Note that the bracket suffix is emitted immediately after the reference-name
bytes, with no separating space. -/
def TokenVariableDescription.write_to (bs : ByteStorage) :
    TokenVariableDescription → List Nat
  | .Unspecified id => bs.get_bytes id
  | .Vector id width => bs.get_bytes id ++ ascii "[" ++ decimal_bytes width ++ ascii "]"
  | .VectorSelect id msb lsb =>
    bs.get_bytes id ++ ascii "[" ++ decimal_bytes msb ++ ascii ":" ++ decimal_bytes lsb
      ++ ascii "]"

/-- The `Token::Var` arm of `Token::write_to` (src/tokenizer/token.rs:243-261):
`$var <net_type> <width> <idcode> <description> $end\n`. -/
def write_var (bs : ByteStorage) (net_type : TokenVariableNetType) (width : Nat)
    (token_idcode : Nat) (variable_description : TokenVariableDescription) : List Nat :=
  ascii "$var " ++ net_type.to_byte_str ++ ascii " " ++ decimal_bytes width ++ ascii " "
    ++ TokenIdCode.write_to bs token_idcode ++ ascii " "
    ++ variable_description.write_to bs ++ ascii " $end" ++ [10]

/-- Four-state bit values; `BitVector` payloads (external crate
`makai_waveform_db`) are kept as uninterpreted bit lists — no claim below
inspects them. -/
inductive FourState where
  | zero | one | x | z
deriving DecidableEq, Repr

/-- An `f64` payload, kept as its uninterpreted 64 bit pattern — no claim
below inspects it. -/
structure F64 where
  bits : Nat
deriving DecidableEq, Repr

/-- `Token` (src/tokenizer/token.rs:158-194); byte-store ids are `Nat`s and
the encoded idcode integer stands in for `TokenIdCode`. -/
inductive Token where
  | Comment (id : Nat) (pos : LexerPosition)
  | Date (id : Nat) (pos : LexerPosition)
  | Version (id : Nat) (pos : LexerPosition)
  | Scope (scope_type : TokenScopeType) (scope_id : Nat) (pos : LexerPosition)
  | Timescale (timescale : TokenTimescale) (offset : TokenTimescaleOffset)
      (pos : LexerPosition)
  | Var (net_type : TokenVariableNetType) (width : Nat) (token_idcode : Nat)
      (variable_description : TokenVariableDescription) (pos : LexerPosition)
  | UpScope (pos : LexerPosition)
  | EndDefinitions (pos : LexerPosition)
  | DumpAll (pos : LexerPosition)
  | DumpOff (pos : LexerPosition)
  | DumpOn (pos : LexerPosition)
  | DumpVars (pos : LexerPosition)
  | End (pos : LexerPosition)
  | Timestamp (t : Nat) (pos : LexerPosition)
  | VectorValue (bv : List FourState) (idcode : Nat) (pos : LexerPosition)
  | RealValue (r : F64) (idcode : Nat) (pos : LexerPosition)
deriving DecidableEq, Repr

/-- Parser error kinds (src/errors.rs).  The unused `Custom` variant carries
its message as bytes. -/
inductive ParserError where
  | UnexpectedTermination
  | Tokenizer (err : TokenizerError)
  | UnexpectedToken (t : Token)
  | UnexpectedUpscope (pos : LexerPosition)
  | UnexpectedEndDefinitions (pos : LexerPosition)
  | UnexpectedVariable (pos : LexerPosition)
  | UnmatchedIdcode (pos : LexerPosition)
  | MismatchedWidth (pos : LexerPosition)
  | Custom (msg : List Nat) (t : Option Token)
deriving DecidableEq, Repr

/-- `VcdVariableWidth` (src/parser.rs:31-44). -/
inductive VcdVariableWidth where
  | Vector (width : Nat)
  | Real
deriving DecidableEq, Repr

def VcdVariableWidth.get_width : VcdVariableWidth → Nat
  | .Vector width => width
  | .Real => 64

/-- `VcdVariableDescription` (src/parser.rs:59-76). -/
inductive VcdVariableDescription where
  | Unspecified
  | Vector (width : Nat)
  | VectorSelect (msb lsb : Nat)
deriving DecidableEq, Repr

def VcdVariableDescription.new : TokenVariableDescription → VcdVariableDescription
  | .Unspecified _ => .Unspecified
  | .Vector _ width => .Vector width
  | .VectorSelect _ msb lsb => .VectorSelect msb lsb

/-- `VcdVariable` (src/parser.rs:78-85); the name is kept as the raw bytes the
source passes through `String::from_utf8_lossy` (identity on ASCII). -/
structure VcdVariable where
  name : List Nat
  description : VcdVariableDescription
  width : VcdVariableWidth
  net_type : TokenVariableNetType
  idcode : Nat
deriving DecidableEq, Repr

/-- `VcdVariable::new` (src/parser.rs:88-127).  The `VectorSelect` arm again
computes `msb - lsb + 1` in wrapping `usize` arithmetic. -/
def VcdVariable.new (token_width : Nat) (description : TokenVariableDescription)
    (net_type : TokenVariableNetType) (token_idcode : Nat) (pos : LexerPosition)
    (bs : ByteStorage) : Except ParserError VcdVariable :=
  let checked : Except ParserError (Nat × VcdVariableWidth) :=
    match net_type with
    | .Real | .Realtime =>
      match description with
      | .Unspecified id => .ok (id, .Real)
      | _ => .error (.MismatchedWidth pos)
    | _ =>
      match description with
      | .Unspecified id => .ok (id, .Vector token_width)
      | .Vector id width =>
        if width ≠ token_width then .error (.MismatchedWidth pos)
        else .ok (id, .Vector token_width)
      | .VectorSelect id msb lsb =>
        let width := wrap_add (wrap_sub msb lsb) 1
        if width ≠ token_width then .error (.MismatchedWidth pos)
        else .ok (id, .Vector width)
  match checked with
  | .error e => .error e
  | .ok (name_id, width) =>
    .ok { name := bs.get_bytes name_id, description := VcdVariableDescription.new description,
          width := width, net_type := net_type, idcode := token_idcode }

/-- `VcdScope` (src/parser.rs:152-158): a node of the scope tree. -/
inductive VcdScope where
  | mk (name : List Nat) (scope_type : TokenScopeType) (scopes : List VcdScope)
      (vars : List VcdVariable)

def VcdScope.name : VcdScope → List Nat
  | .mk n _ _ _ => n

def VcdScope.scope_type : VcdScope → TokenScopeType
  | .mk _ t _ _ => t

def VcdScope.scopes : VcdScope → List VcdScope
  | .mk _ _ s _ => s

/-- The `variables` field of `VcdScope`; `variables` is reserved in Lean, so
the accessor is named `vars`. -/
def VcdScope.vars : VcdScope → List VcdVariable
  | .mk _ _ _ v => v

/-- `convert_timescale` (src/parser.rs:11-26). -/
def convert_timescale (timescale : TokenTimescale) (offset : TokenTimescaleOffset) : Int :=
  let base : Int :=
    match timescale with
    | .Femtoseconds => 15
    | .Picoseconds => 12
    | .Nanoseconds => 9
    | .Microseconds => 6
    | .Milliseconds => 3
    | .Seconds => 0
  let off : Int :=
    match offset with
    | .One => 0
    | .Ten => -1
    | .Hundred => -2
  base + off

/-- `VcdHeader` (src/parser.rs:200-207); the `HashMap` of idcode widths is an
association list with the map's insert/lookup semantics. -/
structure VcdHeader where
  version : Option (List Nat)
  date : Option (List Nat)
  timescale : Option Int
  idcodes : List (Nat × VcdVariableWidth)
  scopes : List VcdScope

/-- `HashMap::insert`: replace any existing binding, returning the old value. -/
def assoc_insert : List (Nat × VcdVariableWidth) → Nat → VcdVariableWidth →
    List (Nat × VcdVariableWidth) × Option VcdVariableWidth
  | [], k, v => ([(k, v)], none)
  | (k', v') :: rest, k, v =>
    if k' = k then ((k, v) :: rest, some v')
    else
      let (r, old) := assoc_insert rest k v
      ((k', v') :: r, old)

/-- `HashMap` lookup for the association-list model. -/
def assoc_lookup : List (Nat × VcdVariableWidth) → Nat → Option VcdVariableWidth
  | [], _ => none
  | (k', v') :: rest, k => if k' = k then some v' else assoc_lookup rest k

/-- The spine walk of the `$scope` arm of `parse_header`
(src/parser.rs:398-403): descend `depth` times into the last child, then push
the new scope.  The source `unwrap`s the last element; that is unreachable
while `depth` does not exceed the nesting of the tree (the parser's
invariant), and the model leaves the list unchanged in that case. -/
def push_scope (depth : Nat) (scopes : List VcdScope) (new : VcdScope) : List VcdScope :=
  match depth with
  | 0 => scopes ++ [new]
  | d + 1 =>
    match scopes.getLast? with
    | none => scopes
    | some last =>
      scopes.dropLast ++
        [VcdScope.mk last.name last.scope_type (push_scope d last.scopes new) last.vars]

/-- The spine walk of the `$var` arm (src/parser.rs:432-436): descend `depth`
times into the last child, then push the variable onto the last scope's
variable list (same unreachable-`unwrap` convention as `push_scope`). -/
def push_variable (depth : Nat) (scopes : List VcdScope) (v : VcdVariable) : List VcdScope :=
  match scopes.getLast? with
  | none => scopes
  | some last =>
    match depth with
    | 0 =>
      scopes.dropLast ++
        [VcdScope.mk last.name last.scope_type last.scopes (last.vars ++ [v])]
    | d + 1 =>
      scopes.dropLast ++
        [VcdScope.mk last.name last.scope_type (push_variable d last.scopes v) last.vars]

/-- The mutable state of `VcdReader` during `parse_header` (src/parser.rs:
335-339), minus the byte store, which the model passes separately and which
header tokens only read. -/
structure ReaderState where
  header : VcdHeader
  scope_depth : Nat

/-- `VcdReader::parse_header` (src/parser.rs:366-453) over a token stream.
The caller-supplied `token_generator` is modelled by the list of tokens it
yields before returning `Ok(None)`; generator errors abort before reaching
this loop's body and are not modelled. -/
def parse_header (bs : ByteStorage) : List Token → ReaderState →
    Except ParserError ReaderState
  | [], _ => .error .UnexpectedTermination
  | t :: rest, st =>
    match t with
    | .Comment _ _ => parse_header bs rest st
    | .Date id _ =>
      parse_header bs rest { st with header := { st.header with date := some (bs.get_bytes id) } }
    | .Version id _ =>
      parse_header bs rest
        { st with header := { st.header with version := some (bs.get_bytes id) } }
    | .Timescale timescale offset _ =>
      parse_header bs rest
        { st with header :=
            { st.header with timescale := some (convert_timescale timescale offset) } }
    | .Scope scope_type scope_id _ =>
      parse_header bs rest
        { st with
          header := { st.header with
            scopes := push_scope st.scope_depth st.header.scopes
              (VcdScope.mk (bs.get_bytes scope_id) scope_type [] []) },
          scope_depth := st.scope_depth + 1 }
    | .Var net_type width token_idcode variable_description pos =>
      if st.scope_depth = 0 then .error (.UnexpectedVariable pos)
      else
        match VcdVariable.new width variable_description net_type token_idcode pos bs with
        | .error e => .error e
        | .ok vrec =>
          let (idcodes1, old) := assoc_insert st.header.idcodes token_idcode vrec.width
          let header1 : VcdHeader :=
            { st.header with
              idcodes := idcodes1,
              scopes := push_variable (st.scope_depth - 1) st.header.scopes vrec }
          match old with
          | some old_width =>
            if old_width ≠ vrec.width then .error (.UnmatchedIdcode pos)
            else parse_header bs rest { st with header := header1 }
          | none => parse_header bs rest { st with header := header1 }
    | .UpScope pos =>
      if st.scope_depth = 0 then .error (.UnexpectedUpscope pos)
      else parse_header bs rest { st with scope_depth := st.scope_depth - 1 }
    | .EndDefinitions pos =>
      if st.scope_depth ≠ 0 then .error (.UnexpectedEndDefinitions pos)
      else .ok st
    | t => .error (.UnexpectedToken t)

/-- Rust `str::split('.')` over the byte view of a path (byte 46 = `'.'`).
Splitting the empty string yields one empty segment, as in Rust. -/
def split_dots : List Nat → List (List Nat)
  | [] => [[]]
  | b :: rest =>
    if b == 46 then [] :: split_dots rest
    else
      match split_dots rest with
      | [] => [[b]]
      | s :: ss => (b :: s) :: ss

/-- Rust `[&str]::join(".")` over byte views. -/
def join_dots : List (List Nat) → List Nat
  | [] => []
  | [s] => s
  | s :: rest => s ++ 46 :: join_dots rest

/-- `get_variable_recursive` (src/parser.rs:225-245): split the remaining path
on `.`; with a single segment left, scan the scope's variables for a matching
name; otherwise descend into the first sub-scope whose name matches the first
segment, re-joining the remaining segments. -/
def get_variable_recursive (scope : VcdScope) (path : List Nat) : Option VcdVariable :=
  match split_dots path with
  | [] => none
  | [single] => scope.vars.find? (fun v => v.name == single)
  | first :: rest =>
    match h : scope.scopes.find? (fun s => s.name == first) with
    | some s' => get_variable_recursive s' (join_dots rest)
    | none => none
termination_by sizeOf scope
decreasing_by
  have hmem := List.mem_of_find?_eq_some h
  have hlt : sizeOf s' < sizeOf scope.scopes := List.sizeOf_lt_of_mem hmem
  cases scope with
  | mk n t s v => simp [VcdScope.scopes] at hlt ⊢; omega

/-- `VcdHeader::get_variable` (src/parser.rs:300-310).  The `len < 2` test
sits inside the loop over the root scopes, so it only fires when at least one
root exists; with no roots the loop body never runs and the result is `none`
either way. -/
def VcdHeader.get_variable (h : VcdHeader) (path : List Nat) : Option VcdVariable :=
  let sections := split_dots path
  match h.scopes with
  | [] => none
  | _ =>
    if sections.length < 2 then none
    else
      match h.scopes.find? (fun s => s.name == sections.headD []) with
      | some s => get_variable_recursive s (join_dots sections.tail)
      | none => none

/-- `VcdEntry` (src/parser.rs:187-192). -/
inductive VcdEntry where
  | Timestamp (t : Nat)
  | Vector (bv : List FourState) (idcode : Nat)
  | Real (r : F64) (idcode : Nat)
deriving DecidableEq, Repr

/-- One iteration of the dispatcher thread (src/utils.rs:215-241): a
`Timestamp` entry is sent to every shard queue, a `Vector` or `Real` entry to
queue `idcode % waveform_threads`.  `outs` collects, per shard, the sequence
of entries sent on that shard's channel; the channels are FIFO with the
dispatcher as sole producer, so this is also the sequence the shard thread
receives. -/
def dispatch_step (n : Nat) (outs : List (List VcdEntry)) (e : VcdEntry) :
    List (List VcdEntry) :=
  match e with
  | .Timestamp t => outs.map (fun q => q ++ [VcdEntry.Timestamp t])
  | .Vector bv id => outs.set (id % n) (outs.getD (id % n) [] ++ [VcdEntry.Vector bv id])
  | .Real r id => outs.set (id % n) (outs.getD (id % n) [] ++ [VcdEntry.Real r id])

/-- The dispatcher thread over the whole entry stream, starting from `n`
empty shard queues. -/
def dispatch (n : Nat) (entries : List VcdEntry) : List (List VcdEntry) :=
  entries.foldl (dispatch_step n) (List.replicate n [])

/-- Whether the dispatcher routes entry `e` to shard `k` (out of `n`):
timestamps go everywhere, changes to shard `idcode % n`. -/
def routes_to (n k : Nat) : VcdEntry → Bool
  | .Timestamp _ => true
  | .Vector _ id => id % n == k
  | .Real _ id => id % n == k

/-- The progress accumulator shared by both loaders: `last_index` mirrors the
`last_index` local, `reports` records every `(done, total)` value handed to
the status sink. -/
structure ProgressState where
  last_index : Nat
  reports : List (Nat × Nat)

/-- One loop iteration's progress update (src/utils.rs:142-146 and
248-252): report `(index, file_size)` when `(index - last_index) * 200 /
file_size > 0`. -/
def progress_step (file_size : Nat) (st : ProgressState) (index : Nat) : ProgressState :=
  if (index - st.last_index) * 200 / file_size > 0 then
    ⟨index, st.reports ++ [(index, file_size)]⟩
  else st

/-- The `(done, total)` values reported by `load_single_threaded`
(src/utils.rs:118-149) on a successful load, abstracted over the sequence of
lexer positions observed after each waveform entry: one unconditional report
right after the header (line 130), then a threshold-gated report per entry;
the loop ends with no further report. -/
def single_threaded_reports (file_size header_index : Nat) (indices : List Nat) :
    List (Nat × Nat) :=
  (indices.foldl (progress_step file_size) ⟨header_index, [(header_index, file_size)]⟩).reports

/-- The values successively stored in the shared progress pair by
`load_multi_threaded` (src/utils.rs:166-169 and 243-264) on a successful
load: the post-header store (line 169; the pre-header store at line 166 is
dominated by it), a threshold-gated store per lexer token, and the final
`(file_size, file_size)` store at end of input (line 256). -/
def multi_threaded_reports (file_size header_index : Nat) (indices : List Nat) :
    List (Nat × Nat) :=
  (indices.foldl (progress_step file_size) ⟨header_index, [(header_index, file_size)]⟩).reports
    ++ [(file_size, file_size)]

/-- A one-variable header (scope `top` holding variable `clk`) used by the
path-query witness. -/
def c8_variable : VcdVariable :=
  { name := ascii "clk", description := .Unspecified, width := .Vector 1,
    net_type := .Wire, idcode := 33 }

def c8_header : VcdHeader :=
  { version := none, date := none, timescale := none, idcodes := [(33, .Vector 1)],
    scopes := [VcdScope.mk (ascii "top") .Module [] [c8_variable]] }

/-- A throwaway concrete source position for witnesses. -/
def pos0 : LexerPosition := ⟨0, 1, 1, 0⟩

/-- The empty header `VcdHeader::new` produces (src/parser.rs:248-256). -/
def empty_header : VcdHeader :=
  { version := none, date := none, timescale := none, idcodes := [], scopes := [] }

/-- A header state in which idcode 33 is already declared with width 1, inside
one open scope (used by the duplicate-idcode witness). -/
def c4_state : ReaderState :=
  ⟨{ version := none, date := none, timescale := none,
     idcodes := [(33, .Vector 1)],
     scopes := [VcdScope.mk (ascii "top") .Module [] []] }, 1⟩

lemma pack_le_cons (b : Nat) (r : List Nat) (hb : b < 256) :
    pack_le (b :: r) = 256 * pack_le r + b := by
  have h := Nat.mul_add_lt_is_or (i := 8) (b := b) (by omega) (pack_le r)
  simp only [pack_le, Nat.shiftLeft_eq]
  rw [Nat.mul_comm (pack_le r) (2 ^ 8)] at *
  omega

lemma pack_le_lt (r : List Nat) (h : ∀ x ∈ r, x < 256) : pack_le r < 256 ^ r.length := by
  induction r with
  | nil => simp [pack_le]
  | cons b r ih =>
    have hb : b < 256 := h b (by simp)
    have hr := ih (fun x hx => h x (by simp [hx]))
    rw [pack_le_cons b r hb]
    simp only [List.length_cons, pow_succ]
    omega

lemma pack_le_inj : ∀ (r1 r2 : List Nat), (∀ x ∈ r1, 0 < x ∧ x < 256) →
    (∀ x ∈ r2, 0 < x ∧ x < 256) → pack_le r1 = pack_le r2 → r1 = r2 := by
  intro r1
  induction r1 with
  | nil =>
    intro r2 _ h2 heq
    cases r2 with
    | nil => rfl
    | cons b r =>
      obtain ⟨hb0, hb1⟩ := h2 b (by simp)
      rw [pack_le_cons b r hb1] at heq
      simp [pack_le] at heq
      omega
  | cons b1 r1 ih =>
    intro r2 h1 h2 heq
    cases r2 with
    | nil =>
      obtain ⟨hb0, hb1⟩ := h1 b1 (by simp)
      rw [pack_le_cons b1 r1 hb1] at heq
      simp [pack_le] at heq
      omega
    | cons b2 r2 =>
      obtain ⟨hb10, hb11⟩ := h1 b1 (by simp)
      obtain ⟨hb20, hb21⟩ := h2 b2 (by simp)
      rw [pack_le_cons b1 r1 hb11, pack_le_cons b2 r2 hb21] at heq
      have hb : b1 = b2 := by omega
      have hp : pack_le r1 = pack_le r2 := by omega
      rw [hb, ih r2 (fun x hx => h1 x (by simp [hx])) (fun x hx => h2 x (by simp [hx])) hp]

lemma write_inline_pack : ∀ (r : List Nat) (fuel : Nat), r.length ≤ fuel →
    (∀ x ∈ r, 0 < x ∧ x < 256) → write_inline (pack_le r) fuel = r := by
  intro r
  induction r with
  | nil =>
    intro fuel _ _
    cases fuel with
    | zero => rfl
    | succ f => simp [write_inline, pack_le]
  | cons b r ih =>
    intro fuel hlen h
    obtain ⟨hb0, hb1⟩ := h b (by simp)
    cases fuel with
    | zero => simp at hlen
    | succ f =>
      rw [pack_le_cons b r hb1]
      have hdx := Nat.and_pow_two_sub_one_eq_mod (256 * pack_le r + b) 8
      norm_num at hdx
      have hmodb : (256 * pack_le r + b) % 256 = b := by
        rw [Nat.mul_add_mod, Nat.mod_eq_of_lt hb1]
      have hdiv : (256 * pack_le r + b) / 256 = pack_le r := by
        rw [Nat.mul_add_div (by norm_num)]
        omega
      simp only [write_inline, hdx, hmodb, if_neg (by omega : ¬ b = 0)]
      rw [Nat.shiftRight_eq_div_pow]
      norm_num
      rw [hdiv]
      exact ih f (by simpa using hlen) (fun x hx => h x (by simp [hx]))

lemma one_shl_63 : (1 : Nat) <<< 63 = 2 ^ 63 := by
  rw [Nat.shiftLeft_eq, Nat.one_mul]

lemma or_two_pow_63 (x : Nat) (h : x < 2 ^ 63) : x ||| 1 <<< 63 = 2 ^ 63 + x := by
  have hm := Nat.mul_add_lt_is_or (i := 63) (b := x) h 1
  rw [Nat.mul_one] at hm
  rw [one_shl_63, Nat.lor_comm]
  omega

lemma land_two_pow_63_of_lt (x : Nat) (h : x < 2 ^ 63) : x &&& 1 <<< 63 = 0 := by
  rw [one_shl_63, Nat.and_two_pow, Nat.testBit_lt_two_pow h]
  rfl

lemma spill_mask_test (idx : Nat) (h : idx < 2 ^ 63) :
    (2 ^ 63 + idx) &&& 1 <<< 63 = 2 ^ 63 := by
  rw [one_shl_63, Nat.and_two_pow, Nat.testBit_two_pow_add_eq, Nat.testBit_lt_two_pow h]
  rfl

lemma spill_strip (idx : Nat) (h : idx < 2 ^ 63) :
    (2 ^ 63 + idx) &&& (1 <<< 63 - 1) = idx := by
  rw [one_shl_63, Nat.and_pow_two_sub_one_eq_mod, Nat.add_mod_left, Nat.mod_eq_of_lt h]

lemma printable_byte_facts (b : List Nat) (hp : printable_run b) :
    ∀ x ∈ b, 0 < x ∧ x < 256 := by
  intro x hx
  have := hp x hx
  omega

lemma tokenize_idcode_inline (bs : ByteStorage) (b : List Nat) (hlen : b.length ≤ 7) :
    tokenize_idcode bs b = (bs, pack_le b) := by
  have hncond : ¬ (64 / 8 < b.length ∨
      (b.length = 64 / 8 ∧ b.getD (64 / 8 - 1) 0 >>> 7 = 0)) := by
    rintro (h | ⟨h, _⟩) <;> omega
  simp only [tokenize_idcode, usize_bits]
  rw [if_neg hncond]

lemma tokenize_idcode_spill (bs : ByteStorage) (b : List Nat) (hp : printable_run b)
    (hlen : 8 ≤ b.length) :
    tokenize_idcode bs b = (⟨bs.data ++ [b]⟩, bs.data.length ||| 1 <<< 63) := by
  have hcond : (64 / 8 < b.length ∨
      (b.length = 64 / 8 ∧ b.getD (64 / 8 - 1) 0 >>> 7 = 0)) := by
    rcases Nat.lt_or_ge (64 / 8) b.length with h | h
    · exact Or.inl h
    · have hlen8 : b.length = 64 / 8 := by omega
      refine Or.inr ⟨hlen8, ?_⟩
      have h7 : 64 / 8 - 1 < b.length := by omega
      have hmem : b.getD (64 / 8 - 1) 0 ∈ b := by
        rw [List.getD_eq_getElem?_getD, List.getElem?_eq_getElem h7]
        exact List.getElem_mem h7
      have hb := hp _ hmem
      have hsmall : b.getD (64 / 8 - 1) 0 < 2 ^ 7 := by
        have h2 := hb.2
        have h128 : (2 : Nat) ^ 7 = 128 := by norm_num
        omega
      rw [Nat.shiftRight_eq_div_pow]
      exact Nat.div_eq_of_lt hsmall
  simp only [tokenize_idcode, usize_bits, ByteStorage.insert]
  rw [if_pos hcond]

lemma write_to_inline (bs : ByteStorage) (id : Nat) (h : id < 2 ^ 63) :
    TokenIdCode.write_to bs id = write_inline id 8 := by
  have h63 : usize_bits - 1 = 63 := by norm_num [usize_bits]
  simp only [TokenIdCode.write_to, h63]
  rw [if_pos (land_two_pow_63_of_lt id h)]

lemma write_to_spill (bs : ByteStorage) (idx : Nat) (h : idx < 2 ^ 63) :
    TokenIdCode.write_to bs (2 ^ 63 + idx) = bs.get_bytes idx := by
  have h63 : usize_bits - 1 = 63 := by norm_num [usize_bits]
  simp only [TokenIdCode.write_to, h63]
  rw [if_neg (by rw [spill_mask_test idx h]; positivity), spill_strip idx h]

lemma getD_concat_self (l l2 : List (List Nat)) (x : List Nat) :
    ((l ++ x :: l2).getD l.length []) = x := by
  rw [List.getD_eq_getElem?_getD, List.getElem?_append_right (Nat.le_refl _)]
  simp

lemma pack_le_lt_63 (b : List Nat) (hf : ∀ x ∈ b, 0 < x ∧ x < 256) (hlen : b.length ≤ 7) :
    pack_le b < 2 ^ 63 := by
  have h1 := pack_le_lt b (fun x hx => (hf x hx).2)
  have h2 : (256 : Nat) ^ b.length ≤ 256 ^ 7 := Nat.pow_le_pow_right (by norm_num) hlen
  have h3 : (256 : Nat) ^ 7 < 2 ^ 63 := by norm_num
  omega

theorem idcode_encoding_core
    (bs bs1 bs2 : ByteStorage) (b1 b2 : List Nat) (i1 i2 : Nat)
    (hp1 : printable_run b1) (hp2 : printable_run b2) (hne : b1 ≠ b2)
    (hcap : bs.data.length + 2 ≤ 2 ^ 63)
    (h1 : tokenize_idcode bs b1 = (bs1, i1))
    (h2 : tokenize_idcode bs1 b2 = (bs2, i2)) :
    i1 ≠ i2 ∧ TokenIdCode.write_to bs2 i1 = b1 ∧ TokenIdCode.write_to bs2 i2 = b2 := by
  have hf1 := printable_byte_facts b1 hp1
  have hf2 := printable_byte_facts b2 hp2
  rcases le_or_lt b1.length 7 with hl1 | hl1
  · rw [tokenize_idcode_inline bs b1 hl1] at h1
    injection h1 with hbs1 hi1
    subst hbs1
    have hv1 : i1 < 2 ^ 63 := hi1 ▸ pack_le_lt_63 b1 hf1 hl1
    rcases le_or_lt b2.length 7 with hl2 | hl2
    · rw [tokenize_idcode_inline bs b2 hl2] at h2
      injection h2 with hbs2 hi2
      subst hbs2
      refine ⟨?_, ?_, ?_⟩
      · intro heq
        exact hne (pack_le_inj b1 b2 hf1 hf2 (by rw [hi1, hi2, heq]))
      · rw [write_to_inline _ _ hv1, ← hi1]
        exact write_inline_pack b1 8 (by omega) hf1
      · have hv2 : i2 < 2 ^ 63 := hi2 ▸ pack_le_lt_63 b2 hf2 hl2
        rw [write_to_inline _ _ hv2, ← hi2]
        exact write_inline_pack b2 8 (by omega) hf2
    · rw [tokenize_idcode_spill bs b2 hp2 (by omega)] at h2
      injection h2 with hbs2 hi2
      have hL : bs.data.length < 2 ^ 63 := by omega
      have hi2v : i2 = 2 ^ 63 + bs.data.length := by
        rw [← hi2, or_two_pow_63 _ hL]
      refine ⟨by omega, ?_, ?_⟩
      · rw [write_to_inline _ _ hv1, ← hi1]
        exact write_inline_pack b1 8 (by omega) hf1
      · rw [hi2v, write_to_spill _ _ hL, ← hbs2]
        simp only [ByteStorage.get_bytes]
        exact getD_concat_self bs.data [] b2
  · rw [tokenize_idcode_spill bs b1 hp1 (by omega)] at h1
    injection h1 with hbs1 hi1
    have hL : bs.data.length < 2 ^ 63 := by omega
    have hi1v : i1 = 2 ^ 63 + bs.data.length := by
      rw [← hi1, or_two_pow_63 _ hL]
    rcases le_or_lt b2.length 7 with hl2 | hl2
    · rw [tokenize_idcode_inline bs1 b2 hl2] at h2
      injection h2 with hbs2 hi2
      have hv2 : i2 < 2 ^ 63 := hi2 ▸ pack_le_lt_63 b2 hf2 hl2
      refine ⟨by omega, ?_, ?_⟩
      · rw [hi1v, write_to_spill _ _ hL, ← hbs2, ← hbs1]
        simp only [ByteStorage.get_bytes]
        exact getD_concat_self bs.data [] b1
      · rw [write_to_inline _ _ hv2, ← hi2]
        exact write_inline_pack b2 8 (by omega) hf2
    · rw [tokenize_idcode_spill bs1 b2 hp2 (by omega)] at h2
      injection h2 with hbs2 hi2
      have hL1 : bs1.data.length < 2 ^ 63 := by
        rw [← hbs1]
        simp
        omega
      have hi2v : i2 = 2 ^ 63 + bs1.data.length := by
        rw [← hi2, or_two_pow_63 _ hL1]
      have hlen1 : bs1.data.length = bs.data.length + 1 := by
        rw [← hbs1]
        simp
      refine ⟨by omega, ?_, ?_⟩
      · rw [hi1v, write_to_spill _ _ hL, ← hbs2, ← hbs1]
        simp only [ByteStorage.get_bytes]
        have : bs.data ++ [b1] ++ [b2] = bs.data ++ b1 :: [b2] := by simp
        rw [this]
        exact getD_concat_self bs.data [b2] b1
      · rw [hi2v, write_to_spill _ _ hL1, ← hbs2]
        simp only [ByteStorage.get_bytes]
        exact getD_concat_self bs1.data [] b2

/-- C1: the idcode encoding is total and injective on printable-ASCII byte
runs (0x21-0x7E): encoding two distinct runs through the same (adequately
sized) byte store yields distinct integers, and `TokenIdCode::write_to`
against the resulting store reproduces exactly the original bytes of each. -/
theorem idcode_encoding_injective_roundtrip
    (bs bs1 bs2 : ByteStorage) (b1 b2 : List Nat) (i1 i2 : Nat)
    (hp1 : printable_run b1) (hp2 : printable_run b2) (hne : b1 ≠ b2)
    (hcap : bs.data.length + 2 ≤ 2 ^ 63)
    (h1 : tokenize_idcode bs b1 = (bs1, i1))
    (h2 : tokenize_idcode bs1 b2 = (bs2, i2)) :
    i1 ≠ i2 ∧ TokenIdCode.write_to bs2 i1 = b1 ∧ TokenIdCode.write_to bs2 i2 = b2 := by
  exact idcode_encoding_core bs bs1 bs2 b1 b2 i1 i2 hp1 hp2 hne hcap h1 h2

/-- Witness for C1 at the concrete runs `!` and `"` in an empty store. -/
theorem idcode_encoding_injective_roundtrip_witness :
    33 ≠ 34 ∧ TokenIdCode.write_to ⟨[]⟩ 33 = [33] ∧ TokenIdCode.write_to ⟨[]⟩ 34 = [34] :=
  idcode_encoding_injective_roundtrip ⟨[]⟩ ⟨[]⟩ ⟨[]⟩ [33] [34] 33 34 (by decide) (by decide)
    (by decide) (by decide) (by decide) (by decide)

/-- C2: the claim states that a timestamp whose digit run exceeds the `u64`
range makes tokenization fail with an integer parse error.  The code has no
such check: `tokenize_timestamp` folds a wrapping multiply/add, so the span
`#18446744073709551616` (i.e. `#2^64`) yields `Ok(0)` instead of an error —
and a space between `#` and the digits, which the lexer's regex
`#[ ]*(0|[1-9][0-9]*)` admits, is folded in as the bogus digit value
`b' ' - b'0'` (240 after `u8` wrap), so `# 5` yields 2405 rather than 5.
In debug builds both inputs panic on arithmetic overflow instead. -/
theorem tokenize_timestamp_bug :
    tokenize_timestamp (ascii "#18446744073709551616") = .ok 0 ∧
    tokenize_timestamp (ascii "# 5") = .ok 2405 ∧ (2405 : Nat) ≠ 5 :=
  ⟨by rfl, by rfl, by decide⟩

/-- C3: during header parsing, `$upscope` at depth 0 fails with
`UnexpectedUpscope` at its source position and otherwise decrements the
depth, `$enddefinitions` at depth > 0 fails with `UnexpectedEndDefinitions`,
`$var` at depth 0 fails with `UnexpectedVariable`, and `$scope` always
increments the depth; the depth (a `usize`) is guarded before every
decrement, so it never goes below 0. -/
theorem parse_header_scope_depth
    (bs : ByteStorage) (st : ReaderState) (rest : List Token) (pos : LexerPosition) :
    (st.scope_depth = 0 →
      parse_header bs (Token.UpScope pos :: rest) st = .error (.UnexpectedUpscope pos)) ∧
    (st.scope_depth ≠ 0 →
      parse_header bs (Token.UpScope pos :: rest) st =
        parse_header bs rest { st with scope_depth := st.scope_depth - 1 }) ∧
    (st.scope_depth ≠ 0 →
      parse_header bs (Token.EndDefinitions pos :: rest) st =
        .error (.UnexpectedEndDefinitions pos)) ∧
    (∀ nt w idc vd, st.scope_depth = 0 →
      parse_header bs (Token.Var nt w idc vd pos :: rest) st =
        .error (.UnexpectedVariable pos)) ∧
    (∀ ty sid, parse_header bs (Token.Scope ty sid pos :: rest) st =
      parse_header bs rest
        { st with
          header := { st.header with
            scopes := push_scope st.scope_depth st.header.scopes
              (VcdScope.mk (bs.get_bytes sid) ty [] []) },
          scope_depth := st.scope_depth + 1 }) := by
  refine ⟨?_, ?_, ?_, ?_, ?_⟩
  · intro h
    simp [parse_header, h]
  · intro h
    simp only [parse_header]
    rw [if_neg h]
  · intro h
    simp only [parse_header]
    rw [if_pos h]
  · intro nt w idc vd h
    simp [parse_header, h]
  · intro ty sid
    simp only [parse_header]

/-- Witness for C3 at concrete states of depth 0, 1 and 2. -/
theorem parse_header_scope_depth_witness :
    parse_header ⟨[]⟩ [Token.UpScope pos0] ⟨empty_header, 0⟩ =
      .error (.UnexpectedUpscope pos0) ∧
    parse_header ⟨[]⟩ [Token.EndDefinitions pos0] ⟨empty_header, 1⟩ =
      .error (.UnexpectedEndDefinitions pos0) ∧
    parse_header ⟨[]⟩ [Token.Var .Wire 1 33 (.Unspecified 0) pos0] ⟨empty_header, 0⟩ =
      .error (.UnexpectedVariable pos0) ∧
    parse_header ⟨[]⟩ [Token.UpScope pos0] ⟨empty_header, 2⟩ =
      parse_header ⟨[]⟩ [] ⟨empty_header, 1⟩ :=
  ⟨(parse_header_scope_depth ⟨[]⟩ ⟨empty_header, 0⟩ [] pos0).1 rfl,
   (parse_header_scope_depth ⟨[]⟩ ⟨empty_header, 1⟩ [] pos0).2.2.1 (by decide),
   (parse_header_scope_depth ⟨[]⟩ ⟨empty_header, 0⟩ [] pos0).2.2.2.1 .Wire 1 33 (.Unspecified 0) rfl,
   (parse_header_scope_depth ⟨[]⟩ ⟨empty_header, 2⟩ [] pos0).2.1 (by decide)⟩

lemma assoc_insert_snd : ∀ (m : List (Nat × VcdVariableWidth)) (k : Nat)
    (v : VcdVariableWidth), (assoc_insert m k v).2 = assoc_lookup m k
  | [], _, _ => rfl
  | (k2, v2) :: rest, k, v => by
    simp only [assoc_insert, assoc_lookup]
    by_cases h : k2 = k
    · simp [h]
    · simp only [if_neg h]
      have ih := assoc_insert_snd rest k v
      revert ih
      rcases assoc_insert rest k v with ⟨r, old⟩
      intro ih
      simpa using ih

/-- C4: when a `$var` redeclares an idcode already in the width map, a
conflicting width makes `parse_header` fail with `UnmatchedIdcode` at the
declaration's position, while an agreeing width is accepted and parsing
continues with the map re-inserted and the variable appended. -/
theorem parse_header_duplicate_idcode
    (bs : ByteStorage) (st : ReaderState) (rest : List Token) (pos : LexerPosition)
    (nt : TokenVariableNetType) (w idc : Nat) (vd : TokenVariableDescription)
    (vrec : VcdVariable) (w_old : VcdVariableWidth)
    (hdepth : st.scope_depth ≠ 0)
    (hnew : VcdVariable.new w vd nt idc pos bs = .ok vrec)
    (hold : assoc_lookup st.header.idcodes idc = some w_old) :
    (vrec.width ≠ w_old →
      parse_header bs (Token.Var nt w idc vd pos :: rest) st =
        .error (.UnmatchedIdcode pos)) ∧
    (vrec.width = w_old →
      parse_header bs (Token.Var nt w idc vd pos :: rest) st =
        parse_header bs rest
          { st with header := { st.header with
              idcodes := (assoc_insert st.header.idcodes idc vrec.width).1,
              scopes := push_variable (st.scope_depth - 1) st.header.scopes vrec } }) := by
  rcases hins : assoc_insert st.header.idcodes idc vrec.width with ⟨m1, old⟩
  have hsnd := assoc_insert_snd st.header.idcodes idc vrec.width
  rw [hins, hold] at hsnd
  have hold2 : old = some w_old := by simpa using hsnd
  subst hold2
  constructor
  · intro hne
    simp only [parse_header, hnew, if_neg hdepth, hins]
    rw [if_pos (by exact fun h => hne h.symm)]
  · intro heq
    simp only [parse_header, hnew, if_neg hdepth, hins]
    rw [if_neg (by simp [heq])]

/-- Witness for C4: redeclaring idcode 33 (width 1 in `c4_state`) with
width 2 fails with `UnmatchedIdcode`. -/
theorem parse_header_duplicate_idcode_witness :
    parse_header ⟨[ascii "v"]⟩ [Token.Var .Wire 2 33 (.Unspecified 0) pos0] c4_state =
      .error (.UnmatchedIdcode pos0) :=
  (parse_header_duplicate_idcode ⟨[ascii "v"]⟩ c4_state [] pos0 .Wire 2 33 (.Unspecified 0)
    { name := ascii "v", description := .Unspecified, width := .Vector 2,
      net_type := .Wire, idcode := 33 } (.Vector 1) (by decide) (by rfl) (by rfl)).1 (by decide)

/-- C5: a bracket suffix must agree with the declared decimal width —
`[width]` computes `width`, `[msb:lsb]` computes `msb - lsb + 1` — and a
successfully tokenized `$var` with a bracketed description always satisfies
declared = computed; a mismatch fails with `IncorrectVariableWidth(declared,
actual)`, and in particular the body of `$var wire 3 ! foo [0:0] $end` fails
with `IncorrectVariableWidth(3, 1)`. -/
theorem tokenize_variable_width_check :
    (∀ id w, (TokenVariableDescription.Vector id w).get_width = w) ∧
    (∀ id msb lsb, lsb ≤ msb → msb < 2 ^ 63 →
      (TokenVariableDescription.VectorSelect id msb lsb).get_width = msb - lsb + 1) ∧
    (∀ (bs bs' : ByteStorage) (bytes : List Nat) (pos : LexerPosition)
        (nt : TokenVariableNetType) (w idcode : Nat) (vd : TokenVariableDescription),
      tokenize_variable bs bytes pos = (bs', .ok (nt, w, idcode, vd)) →
      vd.is_unspecified = false → w = vd.get_width) ∧
    (∀ (bs : ByteStorage) (pos : LexerPosition),
      tokenize_variable bs (ascii "wire 3 ! foo [0:0]") pos =
        (⟨bs.data ++ [ascii "foo"]⟩, .error (.IncorrectVariableWidth 3 1 pos))) := by
  refine ⟨fun id w => rfl, ?_, ?_, ?_⟩
  · intro id msb lsb hle hlt
    simp only [TokenVariableDescription.get_width, wrap_add, wrap_sub, u64_mod]
    have h64 : (2 : Nat) ^ 64 = 18446744073709551616 := by norm_num
    have h63 : (2 : Nat) ^ 63 = 9223372036854775808 := by norm_num
    omega
  · intro bs bs' bytes pos nt w idcode vd h hvd
    simp only [tokenize_variable] at h
    split at h
    · simp at h
    · split at h
      · simp at h
      · split at h
        · simp at h
        · rename_i heq
          split at h
          · simp at h
          · split at h
            · simp at h
            · simp only [Prod.mk.injEq, Except.ok.injEq] at h
              obtain ⟨hbs, hnt, hw, hid, hvd2⟩ := h
              rename_i hcond1 hcond2
              subst hvd2 hw
              rcases not_and_or.mp hcond1 with hc | hc
              · omega
              · simp [hvd] at hc
  · intro bs pos
    rfl

/-- Witness for C5: `[2:0]` computes width 3, a tokenized `$var` body with
that suffix has declared = computed = 3, and the Scenario E body fails with
`IncorrectVariableWidth(3, 1)`. -/
theorem tokenize_variable_width_check_witness :
    (TokenVariableDescription.VectorSelect 0 2 0).get_width = 2 - 0 + 1 ∧
    (3 : Nat) = (TokenVariableDescription.VectorSelect 0 2 0).get_width ∧
    tokenize_variable ⟨[]⟩ (ascii "wire 3 ! foo [0:0]") pos0 =
      (⟨[ascii "foo"]⟩, .error (.IncorrectVariableWidth 3 1 pos0)) :=
  ⟨tokenize_variable_width_check.2.1 0 2 0 (by decide) (by decide),
   tokenize_variable_width_check.2.2.1 ⟨[]⟩ ⟨[ascii "foo"]⟩ (ascii "wire 3 ! foo [2:0]") pos0
     .Wire 3 33 (.VectorSelect 0 2 0) (by rfl) (by rfl),
   tokenize_variable_width_check.2.2.2 ⟨[]⟩ pos0⟩

/-- C6: the claim states that serializing any token and re-lexing/re-tokenizing
yields a semantically equal token.  For a `$var` with a bracketed reference,
`Token::write_to` emits the reference name and the bracket with no separating
space (`foo[2:0]`), so the emitted line re-lexes with `foo[2:0]` as the whole
reference name and re-tokenizes to an `Unspecified` description over the
concatenated bytes — not semantically equal to the original `VectorSelect`
token. -/
theorem var_write_to_not_roundtrip :
    tokenize_variable ⟨[]⟩ (ascii "wire 3 ! foo [2:0]") pos0 =
      (⟨[ascii "foo"]⟩, .ok (.Wire, 3, 33, .VectorSelect 0 2 0)) ∧
    write_var ⟨[ascii "foo"]⟩ .Wire 3 33 (.VectorSelect 0 2 0) =
      ascii "$var" ++ ascii " wire 3 ! foo[2:0] " ++ ascii "$end" ++ [10] ∧
    trim_bytes (ascii " wire 3 ! foo[2:0] ") = ascii "wire 3 ! foo[2:0]" ∧
    tokenize_variable ⟨[ascii "foo"]⟩ (ascii "wire 3 ! foo[2:0]") pos0 =
      (⟨[ascii "foo", ascii "foo[2:0]"]⟩, .ok (.Wire, 3, 33, .Unspecified 1)) ∧
    (TokenVariableDescription.Unspecified 1 : TokenVariableDescription) ≠ .VectorSelect 0 2 0 ∧
    ByteStorage.get_bytes ⟨[ascii "foo", ascii "foo[2:0]"]⟩ 1 ≠
      ByteStorage.get_bytes ⟨[ascii "foo"]⟩ 0 :=
  ⟨by rfl, by rfl, by rfl, by rfl, by decide, by decide⟩

/-- C10: the claim states that a reversed bracket select such as `[0:5]`,
which the lexer's grammar accepts, is rejected with a tokenizer error instead
of evaluating `msb - lsb + 1` with an underflowing subtraction.  The code
evaluates the subtraction: under wrapping (release) semantics `[0:5]`
computes width `2^64 - 4`, producing `IncorrectVariableWidth(3, 2^64 - 4)`
for a declared width of 3 — and a declared width of `2^64 - 4` is accepted
outright; debug builds panic on the underflow instead. -/
theorem vector_select_underflow :
    (TokenVariableDescription.VectorSelect 0 0 5).get_width = 2 ^ 64 - 4 ∧
    tokenize_variable ⟨[]⟩ (ascii "wire 3 ! foo [0:5]") pos0 =
      (⟨[ascii "foo"]⟩, .error (.IncorrectVariableWidth 3 (2 ^ 64 - 4) pos0)) ∧
    tokenize_variable ⟨[]⟩ (ascii "wire 18446744073709551612 ! foo [0:5]") pos0 =
      (⟨[ascii "foo"]⟩, .ok (.Wire, 2 ^ 64 - 4, 33, .VectorSelect 0 0 5)) :=
  ⟨by rfl, by rfl, by rfl⟩

lemma dispatch_step_length (n : Nat) (outs : List (List VcdEntry)) (e : VcdEntry) :
    (dispatch_step n outs e).length = outs.length := by
  cases e <;> simp [dispatch_step]

lemma dispatch_step_getD (n k : Nat) (outs : List (List VcdEntry)) (e : VcdEntry)
    (hk : k < outs.length) :
    (dispatch_step n outs e).getD k [] =
      outs.getD k [] ++ (if routes_to n k e then [e] else []) := by
  cases e with
  | Timestamp t =>
    simp [dispatch_step, routes_to, List.getD_eq_getElem?_getD,
      List.getElem?_eq_getElem hk]
  | Vector bv id =>
    by_cases h : id % n = k
    · subst h
      simp [dispatch_step, routes_to, List.getD_eq_getElem?_getD,
        List.getElem?_set_self hk]
    · simp [dispatch_step, routes_to, h, List.getD_eq_getElem?_getD,
        List.getElem?_set_ne h]
  | Real r id =>
    by_cases h : id % n = k
    · subst h
      simp [dispatch_step, routes_to, List.getD_eq_getElem?_getD,
        List.getElem?_set_self hk]
    · simp [dispatch_step, routes_to, h, List.getD_eq_getElem?_getD,
        List.getElem?_set_ne h]

lemma dispatch_fold_getD (n k : Nat) :
    ∀ (es : List VcdEntry) (outs : List (List VcdEntry)), k < outs.length →
      (es.foldl (dispatch_step n) outs).getD k [] =
        outs.getD k [] ++ es.filter (routes_to n k) := by
  intro es
  induction es with
  | nil =>
    intro outs hk
    simp
  | cons e es ih =>
    intro outs hk
    simp only [List.foldl_cons]
    rw [ih _ (by rw [dispatch_step_length]; exact hk)]
    rw [dispatch_step_getD n k outs e hk, List.filter_cons]
    by_cases h : routes_to n k e <;> simp [h]

/-- C7: with `n` shards, the dispatcher's per-shard send sequence is the
order-preserving filter of the entry stream keeping every `Timestamp` and
exactly the `Vector`/`Real` entries with `idcode % n` equal to the shard
index; hence every timestamp is broadcast to all shards, every change goes
exactly to shard `idcode % n`, and each shard receives a timestamp before any
change that follows it in the stream (the channels are FIFO with the
dispatcher as sole producer). -/
theorem dispatcher_routing (n k : Nat) (es : List VcdEntry) (hn : 0 < n) (hk : k < n) :
    (dispatch n es).getD k [] = es.filter (routes_to n k) ∧
    (∀ t, VcdEntry.Timestamp t ∈ es → VcdEntry.Timestamp t ∈ (dispatch n es).getD k []) ∧
    (∀ bv i j, j < n → VcdEntry.Vector bv i ∈ es →
      (VcdEntry.Vector bv i ∈ (dispatch n es).getD j [] ↔ j = i % n)) ∧
    (∀ r i j, j < n → VcdEntry.Real r i ∈ es →
      (VcdEntry.Real r i ∈ (dispatch n es).getD j [] ↔ j = i % n)) ∧
    (∀ l1 t l2, es = l1 ++ VcdEntry.Timestamp t :: l2 →
      (dispatch n es).getD k [] =
        l1.filter (routes_to n k) ++ VcdEntry.Timestamp t :: l2.filter (routes_to n k)) := by
  have main : ∀ j, j < n → (dispatch n es).getD j [] = es.filter (routes_to n j) := by
    intro j hj
    rw [dispatch, dispatch_fold_getD n j es (List.replicate n []) (by simpa using hj)]
    simp [List.getD_eq_getElem?_getD, List.getElem?_replicate, hj]
  refine ⟨main k hk, ?_, ?_, ?_, ?_⟩
  · intro t hmem
    rw [main k hk]
    exact List.mem_filter.mpr ⟨hmem, by simp [routes_to]⟩
  · intro bv i j hj hmem
    rw [main j hj]
    simp only [List.mem_filter, routes_to]
    constructor
    · intro h
      have := h.2
      simp at this
      omega
    · intro h
      exact ⟨hmem, by simp [h.symm]⟩
  · intro r i j hj hmem
    rw [main j hj]
    simp only [List.mem_filter, routes_to]
    constructor
    · intro h
      have := h.2
      simp at this
      omega
    · intro h
      exact ⟨hmem, by simp [h.symm]⟩
  · intro l1 t l2 heq
    rw [main k hk, heq, List.filter_append, List.filter_cons]
    simp [routes_to]

/-- Witness for C7 on a concrete three-entry stream over two shards. -/
theorem dispatcher_routing_witness :
    VcdEntry.Timestamp 7 ∈
      (dispatch 2 [VcdEntry.Timestamp 7, VcdEntry.Vector [] 3, VcdEntry.Real ⟨0⟩ 4]).getD 0 [] ∧
    (VcdEntry.Vector [] 3 ∈
      (dispatch 2 [VcdEntry.Timestamp 7, VcdEntry.Vector [] 3, VcdEntry.Real ⟨0⟩ 4]).getD 1 [] ↔
        1 = 3 % 2) :=
  ⟨(dispatcher_routing 2 0 [VcdEntry.Timestamp 7, VcdEntry.Vector [] 3, VcdEntry.Real ⟨0⟩ 4]
      (by decide) (by decide)).2.1 7 (by decide),
   (dispatcher_routing 2 0 [VcdEntry.Timestamp 7, VcdEntry.Vector [] 3, VcdEntry.Real ⟨0⟩ 4]
      (by decide) (by decide)).2.2.1 [] 3 1 (by decide) (by decide)⟩

lemma split_dots_ne_nil : ∀ (l : List Nat), split_dots l ≠ []
  | [] => by simp [split_dots]
  | b :: rest => by
    simp only [split_dots]
    by_cases h : b == 46
    · simp [h]
    · simp only [h]
      rcases hs : split_dots rest with _ | ⟨s, ss⟩
      · simp
      · simp

lemma split_dots_dot_free : ∀ (l : List Nat), ∀ s ∈ split_dots l, ∀ b ∈ s, (b == 46) = false
  | [] => by simp [split_dots]
  | b :: rest => by
    intro s hs x hx
    simp only [split_dots] at hs
    by_cases h : b == 46
    · simp only [h, if_pos] at hs
      rcases List.mem_cons.mp hs with h2 | h2
      · subst h2
        simp at hx
      · exact split_dots_dot_free rest s h2 x hx
    · simp only [h] at hs
      rcases heq : split_dots rest with _ | ⟨s0, ss⟩
      · exact absurd heq (split_dots_ne_nil rest)
      · rw [heq] at hs
        simp only [Bool.false_eq_true, if_false] at hs
        rcases List.mem_cons.mp hs with h2 | h2
        · subst h2
          rcases List.mem_cons.mp hx with h3 | h3
          · subst h3
            simpa using h
          · exact split_dots_dot_free rest s0 (heq ▸ List.mem_cons_self s0 ss) x h3
        · exact split_dots_dot_free rest s (heq ▸ List.mem_cons_of_mem s0 h2) x hx

lemma split_dots_append_nodot :
    ∀ (s l : List Nat) (h0 : List Nat) (t : List (List Nat)),
      (∀ b ∈ s, (b == 46) = false) → split_dots l = h0 :: t →
      split_dots (s ++ l) = (s ++ h0) :: t := by
  intro s
  induction s with
  | nil =>
    intro l h0 t _ hl
    simpa using hl
  | cons b s ih =>
    intro l h0 t hnd hl
    have hb : (b == 46) = false := hnd b (by simp)
    simp only [List.cons_append, split_dots, hb, Bool.false_eq_true, if_false, List.append_eq]
    rw [ih l h0 t (fun x hx => hnd x (by simp [hx])) hl]

lemma split_dots_join : ∀ (ss : List (List Nat)), ss ≠ [] →
    (∀ s ∈ ss, ∀ b ∈ s, (b == 46) = false) → split_dots (join_dots ss) = ss
  | [], h, _ => absurd rfl h
  | [s], _, hnd => by
    have : split_dots ([] : List Nat) = [] :: [] := by simp [split_dots]
    have h2 := split_dots_append_nodot s [] [] [] (hnd s (by simp)) this
    simpa [join_dots] using h2
  | s :: s2 :: rest, _, hnd => by
    have ih := split_dots_join (s2 :: rest) (by simp)
      (fun x hx => hnd x (List.mem_cons_of_mem s hx))
    have hmid : split_dots (46 :: join_dots (s2 :: rest)) = [] :: s2 :: rest := by
      simp only [split_dots]
      norm_num
      exact ih
    have h2 := split_dots_append_nodot s (46 :: join_dots (s2 :: rest)) [] (s2 :: rest)
      (hnd s (by simp)) hmid
    simpa [join_dots] using h2

lemma scope_sizeOf_lt {s : VcdScope} {scope : VcdScope} (h : s ∈ scope.scopes) :
    sizeOf s < sizeOf scope := by
  have hlt : sizeOf s < sizeOf scope.scopes := List.sizeOf_lt_of_mem h
  cases scope with
  | mk n t sc v =>
    simp only [VcdScope.scopes] at hlt
    simp only [VcdScope.mk.sizeOf_spec]
    omega

lemma get_variable_recursive_name :
    ∀ (N : Nat) (scope : VcdScope), sizeOf scope ≤ N → ∀ (path : List Nat) (v : VcdVariable),
      get_variable_recursive scope path = some v →
      (split_dots path).getLast? = some v.name := by
  intro N
  induction N with
  | zero =>
    intro scope hN
    exfalso
    cases scope with
    | mk n t sc vars =>
      simp only [VcdScope.mk.sizeOf_spec] at hN
      omega
  | succ N ihN =>
    intro scope hN path v h
    rw [get_variable_recursive] at h
    split at h
    · exact absurd h (by simp)
    · rename_i single heq
      rw [heq]
      have hp := List.find?_some h
      have hname : v.name = single := by simpa using hp
      simp [hname]
    · rename_i x1 first rest hne heq
      rcases rest with _ | ⟨r2, rs⟩
      · exact absurd rfl hne
      split at h
      · rename_i s' hfind
        have hmem := List.mem_of_find?_eq_some hfind
        have hsz : sizeOf s' ≤ N := by
          have := scope_sizeOf_lt hmem
          omega
        have hrec := ihN s' hsz (join_dots (r2 :: rs)) v h
        have hnd : ∀ s ∈ (r2 :: rs), ∀ b ∈ s, (b == 46) = false := by
          intro s hs b hb
          exact split_dots_dot_free path s (heq ▸ List.mem_cons_of_mem first hs) b hb
        rw [split_dots_join (r2 :: rs) (by simp) hnd] at hrec
        rw [heq, List.getLast?_cons_cons]
        exact hrec
      · exact absurd h (by simp)


/-- C8: `get_variable(path)` returns none whenever splitting the path on `.`
yields fewer than two segments, and whenever it returns a variable, that
variable's name equals the last path segment (names are compared with exact
byte equality throughout the descent, so the lookup is case-sensitive). -/
theorem get_variable_path :
    (∀ (hdr : VcdHeader) (path : List Nat),
      (split_dots path).length < 2 → hdr.get_variable path = none) ∧
    (∀ (hdr : VcdHeader) (path : List Nat) (v : VcdVariable),
      hdr.get_variable path = some v → (split_dots path).getLast? = some v.name) := by
  constructor
  · intro hdr path hlen
    simp only [VcdHeader.get_variable]
    split
    · rfl
    · rw [if_pos hlen]
  · intro hdr path v hv
    simp only [VcdHeader.get_variable] at hv
    split at hv
    · exact absurd hv (by simp)
    · split at hv
      · exact absurd hv (by simp)
      · rename_i hlen
        split at hv
        · rename_i s hfind
          have hrec := get_variable_recursive_name (sizeOf s) s (Nat.le_refl _)
            (join_dots (split_dots path).tail) v hv
          rcases hsp : split_dots path with _ | ⟨s0, t⟩
          · exact absurd hsp (split_dots_ne_nil path)
          · rcases t with _ | ⟨s1, rest⟩
            · rw [hsp] at hlen
              simp at hlen
            · have hnd : ∀ x ∈ (s1 :: rest), ∀ b ∈ x, (b == 46) = false := by
                intro x hx b hb
                exact split_dots_dot_free path x (hsp ▸ List.mem_cons_of_mem s0 hx) b hb
              rw [hsp] at hrec
              simp only [List.tail_cons] at hrec
              rw [split_dots_join (s1 :: rest) (by simp) hnd] at hrec
              rw [List.getLast?_cons_cons]
              exact hrec
        · exact absurd hv (by simp)

/-- Witness for C8: a one-segment path misses, and the hit for `top.clk`
returns the variable named by the last segment. -/
theorem get_variable_path_witness :
    c8_header.get_variable (ascii "top") = none ∧
    (split_dots (ascii "top.clk")).getLast? = some c8_variable.name :=
  ⟨get_variable_path.1 c8_header (ascii "top") (by decide),
   get_variable_path.2 c8_header (ascii "top.clk") c8_variable
     (by simp [VcdHeader.get_variable, c8_header, c8_variable, get_variable_recursive, ascii,
       split_dots, join_dots, List.find?, VcdScope.name, VcdScope.vars, VcdScope.scopes])⟩

lemma chain_le_weaken (a b : Nat) (l : List Nat) (hab : a ≤ b)
    (h : List.Chain (· ≤ ·) b l) : List.Chain (· ≤ ·) a l := by
  cases h with
  | nil => exact List.Chain.nil
  | cons hbc hc => exact List.Chain.cons (le_trans hab hbc) hc

lemma progress_trigger (fs last i : Nat) (hfs : 0 < fs)
    (h : (i - last) * 200 / fs > 0) : last ≤ i ∧ 200 * last + fs ≤ 200 * i := by
  have hge : fs ≤ (i - last) * 200 := by
    by_contra hlt
    rw [Nat.div_eq_of_lt (by omega)] at h
    omega
  omega

lemma progress_fold_count (fs : Nat) (hfs : 0 < fs) :
    ∀ (indices : List Nat) (st : ProgressState), (∀ i ∈ indices, i ≤ fs) →
      st.last_index ≤ fs →
      (indices.foldl (progress_step fs) st).last_index ≤ fs ∧
      (indices.foldl (progress_step fs) st).reports.length * fs + 200 * st.last_index ≤
        st.reports.length * fs + 200 * (indices.foldl (progress_step fs) st).last_index := by
  intro indices
  induction indices with
  | nil =>
    intro st _ hlast
    simp only [List.foldl_nil]
    exact ⟨hlast, Nat.le_refl _⟩
  | cons i rest ih =>
    intro st hle hlast
    have hi : i ≤ fs := hle i (by simp)
    simp only [List.foldl_cons, progress_step]
    by_cases hcond : (i - st.last_index) * 200 / fs > 0
    · rw [if_pos hcond]
      obtain ⟨hmono, htrig⟩ := progress_trigger fs st.last_index i hfs hcond
      have ihs := ih ⟨i, st.reports ++ [(i, fs)]⟩ (fun j hj => hle j (by simp [hj])) hi
      simp only [List.length_append, List.length_cons, List.length_nil] at ihs
      refine ⟨ihs.1, ?_⟩
      have hih := ihs.2
      have hmul : (st.reports.length + (0 + 1)) * fs = st.reports.length * fs + fs := by ring
      omega
    · rw [if_neg hcond]
      exact ih st (fun j hj => hle j (by simp [hj])) hlast

lemma progress_fold_chain (fs : Nat) :
    ∀ (indices : List Nat) (st : ProgressState),
      List.Chain' (fun a b : Nat × Nat => a.1 ≤ b.1) st.reports →
      (∀ p ∈ st.reports, p.1 ≤ st.last_index) →
      List.Chain (· ≤ ·) st.last_index indices →
      List.Chain' (fun a b : Nat × Nat => a.1 ≤ b.1)
          (indices.foldl (progress_step fs) st).reports ∧
      (∀ p ∈ (indices.foldl (progress_step fs) st).reports,
        p.1 ≤ (indices.foldl (progress_step fs) st).last_index) ∧
      st.last_index ≤ (indices.foldl (progress_step fs) st).last_index := by
  intro indices
  induction indices with
  | nil =>
    intro st hc hb _
    exact ⟨hc, hb, Nat.le_refl _⟩
  | cons i rest ih =>
    intro st hc hb hchain
    cases hchain with
    | cons hle hchain2 =>
      simp only [List.foldl_cons, progress_step]
      by_cases hcond : (i - st.last_index) * 200 / fs > 0
      · rw [if_pos hcond]
        have hc2 : List.Chain' (fun a b : Nat × Nat => a.1 ≤ b.1)
            (st.reports ++ [(i, fs)]) := by
          refine List.Chain'.append hc (List.chain'_singleton _) ?_
          intro x hx y hy
          have hxm : x ∈ st.reports := List.mem_of_mem_getLast? hx
          have hyv : y = (i, fs) := Eq.symm (by simpa using hy)
          rw [hyv]
          exact le_trans (hb x hxm) hle
        have hb2 : ∀ p ∈ st.reports ++ [(i, fs)],
            p.1 ≤ (⟨i, st.reports ++ [(i, fs)]⟩ : ProgressState).last_index := by
          intro p hp
          rcases List.mem_append.mp hp with hp | hp
          · exact le_trans (hb p hp) hle
          · simp at hp
            rw [hp]
        have ihs := ih ⟨i, st.reports ++ [(i, fs)]⟩ hc2 hb2 hchain2
        exact ⟨ihs.1, ihs.2.1, le_trans hle ihs.2.2⟩
      · rw [if_neg hcond]
        exact ih st hc hb (chain_le_weaken st.last_index i rest hle hchain2)

/-- C9 (amended): for both loaders (modelled over the sequence of
non-decreasing lexer indices the loop observes, all bounded by the file
size), the reported done values are monotonically non-decreasing and there
are at most about 200 reports (at most 201 for the single-threaded loader's
callback, at most 202 stores for the multi-threaded loader's shared pair),
and the multi-threaded loader's final store is `(total, total)`.  The
single-threaded loader emits no final report — see
`single_threaded_no_final_report`. -/
theorem progress_reports_monotone_bounded (fs h : Nat) (indices : List Nat)
    (hfs : 0 < fs) (hh : h ≤ fs)
    (hchain : List.Chain (· ≤ ·) h indices) (hle : ∀ i ∈ indices, i ≤ fs) :
    List.Chain' (fun a b : Nat × Nat => a.1 ≤ b.1) (single_threaded_reports fs h indices) ∧
    (single_threaded_reports fs h indices).length ≤ 201 ∧
    List.Chain' (fun a b : Nat × Nat => a.1 ≤ b.1) (multi_threaded_reports fs h indices) ∧
    (multi_threaded_reports fs h indices).length ≤ 202 ∧
    (multi_threaded_reports fs h indices).getLast? = some (fs, fs) := by
  have hcount := progress_fold_count fs hfs indices ⟨h, [(h, fs)]⟩ hle hh
  have hch := progress_fold_chain fs indices ⟨h, [(h, fs)]⟩
    (List.chain'_singleton _) (by simp) hchain
  set r := indices.foldl (progress_step fs) ⟨h, [(h, fs)]⟩ with hr
  have hlen : r.reports.length ≤ 201 := by
    have h1 := hcount.1
    have h2 := hcount.2
    simp only [List.length_cons, List.length_nil] at h2
    have h3 : r.reports.length * fs ≤ 201 * fs := by omega
    exact Nat.le_of_mul_le_mul_right (by omega) hfs
  refine ⟨hch.1, hlen, ?_, ?_, ?_⟩
  · unfold multi_threaded_reports
    rw [← hr]
    refine List.Chain'.append hch.1 (List.chain'_singleton _) ?_
    intro x hx y hy
    have hxm : x ∈ r.reports := List.mem_of_mem_getLast? hx
    have hyv : y = (fs, fs) := Eq.symm (by simpa using hy)
    rw [hyv]
    exact le_trans (hch.2.1 x hxm) hcount.1
  · unfold multi_threaded_reports
    rw [← hr]
    simp only [List.length_append, List.length_cons, List.length_nil]
    omega
  · unfold multi_threaded_reports
    rw [← hr]
    exact List.getLast?_concat r.reports

/-- Counterexample for C9 as stated: a successful single-threaded load over
a 100-byte file whose single body entry ends at index 51 reports
`(50, 100)` then `(51, 100)` and stops — the final report is not
`(total, total)`. -/
theorem single_threaded_no_final_report :
    single_threaded_reports 100 50 [51] = [(50, 100), (51, 100)] ∧
    (single_threaded_reports 100 50 [51]).getLast? = some (51, 100) ∧
    ((51, 100) : Nat × Nat) ≠ (100, 100) :=
  ⟨by rfl, by rfl, by decide⟩

/-- Witness for C9 (amended) at the same concrete load. -/
theorem progress_reports_monotone_bounded_witness :
    List.Chain' (fun a b : Nat × Nat => a.1 ≤ b.1) (single_threaded_reports 100 50 [51]) ∧
    (multi_threaded_reports 100 50 [51]).getLast? = some (100, 100) :=
  ⟨(progress_reports_monotone_bounded 100 50 [51] (by decide) (by decide)
      (List.Chain.cons (by decide) List.Chain.nil) (by decide)).1,
   (progress_reports_monotone_bounded 100 50 [51] (by decide) (by decide)
      (List.Chain.cons (by decide) List.Chain.nil) (by decide)).2.2.2.2⟩
